/-
Verification of the datascraper crawler (src/g4.py) against its
natural-language specification.

The development shallowly embeds the crawl engine:
  * URL resolution: the parts of Python's `urllib.parse` used by the code
    (`urlsplit`/`urlparse` scheme-netloc-path-query-fragment splitting,
    `urlunsplit` joining, and `urljoin` relative-reference resolution),
    modelled from the CPython implementation on the inputs the crawler
    produces (the `params` component — `;`-suffixes of the last path
    segment — and WHATWG control-character stripping are not modelled;
    no URL in this development contains `;` or control characters).
    String scanning is implemented by structural recursion on the
    character list of the string so that everything evaluates.
  * Frontier: the `self.queue` deque plus `self.visited` set of
    `AggressiveCrawlerGUI`, with `offer` the check-and-add performed in
    the link-extraction loop of `scrape_page` and `pop` the `popleft`
    in `run_bfs`.
  * The BFS loop `run_bfs` and per-page `scrape_page`, with the network
    (`requests.get` + `raise_for_status` + BeautifulSoup text/href
    extraction) abstracted as a deterministic fetch oracle and the
    filesystem append abstracted as a write-success oracle.  Log lines
    inserted into the output area are modelled as an event list.
  * `start_scraping`, with the GUI entries as state fields, the
    timestamped filename passed as an argument (it depends on the
    clock), and the filesystem as a path-to-contents store.
-/
import Mathlib

namespace DataScraper

abbrev Url := String

/-! ## URL parsing model (`urllib.parse`) -/

/-- Characters allowed in a URL scheme after the leading letter
(`scheme_chars` in CPython: letters, digits, `+`, `-`, `.`). -/
def isSchemeChar (c : Char) : Bool :=
  c.isAlpha || c.isDigit || c == '+' || c == '-' || c == '.'

/-- Python `s.split(sep, 1)` for a one-character separator, on the
character list: `none` when `sep` does not occur. -/
def chSplitFirst (sep : Char) : List Char → Option (List Char × List Char)
  | [] => none
  | c :: cs =>
    if c = sep then some ([], cs)
    else
      match chSplitFirst sep cs with
      | some (a, b) => some (c :: a, b)
      | none => none

/-- Python `s.split(sep)` for a one-character separator (total split). -/
def chSplitAll (sep : Char) : List Char → List (List Char)
  | [] => [[]]
  | c :: cs =>
    match chSplitAll sep cs with
    | [] => [[]]
    | a :: rest => if c = sep then [] :: a :: rest else (c :: a) :: rest

/-- Python `sep.join(parts)` for a one-character separator. -/
def strJoinSep (sep : Char) : List String → String
  | [] => ""
  | [a] => a
  | a :: rest => a ++ (⟨[sep]⟩ : String) ++ strJoinSep sep rest

/-- Python `s.split(sep)` on strings, one-character separator. -/
def strSplitAll (sep : Char) (s : String) : List String :=
  (chSplitAll sep s.data).map fun l => (⟨l⟩ : String)

/-- Does the string start with the one given character? -/
def chPrefix1 (c1 : Char) (s : String) : Bool :=
  match s.data with
  | a :: _ => a = c1
  | _ => false

/-- Does the string start with the two given characters? -/
def chPrefix2 (c1 c2 : Char) (s : String) : Bool :=
  match s.data with
  | a :: b :: _ => a = c1 && b = c2
  | _ => false

/-- ASCII lower-casing of one character (`str.lower` on scheme text). -/
def chLower (c : Char) : Char :=
  if 'A' ≤ c ∧ c ≤ 'Z' then Char.ofNat (c.toNat + 32) else c

/-- Is `pre` a prefix of `s` (Python `s.startswith(pre)`)? -/
def chStarts : List Char → List Char → Bool
  | [], _ => true
  | _ :: _, [] => false
  | p :: ps, c :: cs => p = c && chStarts ps cs

/-- Python `s.startswith(pre)`. -/
def strStartsWith (s pre : String) : Bool := chStarts pre.data s.data

/-- Python `s.strip()`: remove leading and trailing whitespace. -/
def pyStrip (s : String) : String :=
  ⟨((s.data.dropWhile Char.isWhitespace).reverse.dropWhile Char.isWhitespace).reverse⟩

/-- Value of a nonempty all-digit string. -/
def digitsVal (cs : List Char) : Option Nat :=
  if cs ≠ [] ∧ cs.all Char.isDigit then
    some (cs.foldl (fun n c => 10 * n + (c.toNat - 48)) 0)
  else none

/-- Python `int(s)` on a decimal literal: surrounding whitespace is
ignored, an optional sign precedes the digits; `none` models the
`ValueError` branch. -/
def pyInt? (s : String) : Option Int :=
  match (pyStrip s).data with
  | '-' :: cs => (digitsVal cs).map fun n => -(n : Int)
  | '+' :: cs => (digitsVal cs).map fun n => (n : Int)
  | cs => (digitsVal cs).map fun n => (n : Int)

/-- Scheme extraction of CPython `urlsplit`: the prefix before the first
`:` is a scheme when it is nonempty, starts with a letter and consists of
scheme characters; it is lowercased. -/
def splitScheme (url : String) : Option (String × String) :=
  match chSplitFirst ':' url.data with
  | none => none
  | some (cand, rest) =>
    match cand with
    | [] => none
    | c0 :: _ =>
      if c0.isAlpha && cand.all isSchemeChar then
        some ((⟨cand.map chLower⟩ : String), (⟨rest⟩ : String))
      else none

/-- `_splitnetloc`: after `//`, the netloc extends to the first
`/`, `?` or `#`. -/
def splitNetloc (rest : List Char) : String × List Char :=
  let netloc := rest.takeWhile fun c => c ≠ '/' && c ≠ '?' && c ≠ '#'
  ((⟨netloc⟩ : String), rest.drop netloc.length)

structure UrlSplit where
  scheme : String
  netloc : String
  path : String
  query : String
  fragment : String
deriving DecidableEq

/-- CPython `urlsplit(url, scheme=defaultScheme)`: scheme, then `//netloc`,
then the fragment is split off at the first `#`, then the query at the
first `?`. -/
def urlsplit (defaultScheme url : String) : UrlSplit :=
  let sr : String × String :=
    match splitScheme url with
    | some p => p
    | none => (defaultScheme, url)
  let nr : String × List Char :=
    match sr.2.data with
    | '/' :: '/' :: rest => splitNetloc rest
    | _ => ("", sr.2.data)
  let fr : List Char × String :=
    match chSplitFirst '#' nr.2 with
    | some (a, b) => (a, (⟨b⟩ : String))
    | none => (nr.2, "")
  let qr : String × String :=
    match chSplitFirst '?' fr.1 with
    | some (a, b) => ((⟨a⟩ : String), (⟨b⟩ : String))
    | none => ((⟨fr.1⟩ : String), "")
  ⟨sr.1, nr.1, qr.1, qr.2, fr.2⟩

/-- CPython `urlunsplit`. -/
def urlunsplit (c : UrlSplit) : String :=
  let url :=
    if c.netloc ≠ "" ∨ (c.path ≠ "" ∧ chPrefix2 '/' '/' c.path) then
      "//" ++ c.netloc ++
        (if c.path ≠ "" ∧ ¬ chPrefix1 '/' c.path then "/" ++ c.path else c.path)
    else c.path
  let url := if c.scheme ≠ "" then c.scheme ++ ":" ++ url else url
  let url := if c.query ≠ "" then url ++ "?" ++ c.query else url
  if c.fragment ≠ "" then url ++ "#" ++ c.fragment else url

/-- `uses_relative` of `urllib.parse`. -/
def usesRelative : List String :=
  ["", "ftp", "http", "gopher", "nntp", "imap", "wais", "file", "https",
   "shttp", "mms", "prospero", "rtsp", "rtspu", "sftp", "svn", "svn+ssh",
   "ws", "wss"]

/-- `uses_netloc` of `urllib.parse`. -/
def usesNetloc : List String :=
  ["", "ftp", "http", "gopher", "nntp", "telnet", "imap", "wais", "file",
   "mms", "https", "shttp", "snews", "prospero", "rtsp", "rtspu", "rsync",
   "svn", "svn+ssh", "sftp", "nfs", "git", "git+ssh", "ws", "wss",
   "itms-services"]

/-- The `.`/`..` segment-resolution loop of CPython `urljoin`; a `..` on an
empty stack is ignored, and a trailing `.`/`..` re-appends an empty
segment. -/
def resolveSegments (segments : List String) : List String :=
  let resolved := segments.foldl
    (fun acc seg =>
      if seg = ".." then acc.dropLast
      else if seg = "." then acc
      else acc ++ [seg]) []
  match segments.getLast? with
  | some s => if s = ".." ∨ s = "." then resolved ++ [""] else resolved
  | none => resolved

/-- `segments[1:-1] = filter(None, segments[1:-1])`: drop empty segments
strictly between the first and last. -/
def filterMiddle (l : List String) : List String :=
  if l.length ≤ 2 then l
  else
    l.take 1 ++ ((l.drop 1).dropLast.filter fun s => s ≠ "") ++
      l.drop (l.length - 1)

/-- CPython `urljoin(base, url)` (3.x implementation, `params`-free). -/
def urljoin (base url : String) : String :=
  if base = "" then url
  else if url = "" then base
  else
    let b := urlsplit "" base
    let u := urlsplit b.scheme url
    if u.scheme ≠ b.scheme ∨ u.scheme ∉ usesRelative then url
    else if u.scheme ∈ usesNetloc ∧ u.netloc ≠ "" then urlunsplit u
    else
      let netloc := if u.scheme ∈ usesNetloc then b.netloc else u.netloc
      if u.path = "" then
        let query := if u.query = "" then b.query else u.query
        urlunsplit ⟨u.scheme, netloc, b.path, query, u.fragment⟩
      else
        let baseParts := strSplitAll '/' b.path
        let baseParts :=
          if baseParts.getLast? = some "" then baseParts else baseParts.dropLast
        let segments :=
          if chPrefix1 '/' u.path then strSplitAll '/' u.path
          else filterMiddle (baseParts ++ strSplitAll '/' u.path)
        let path := strJoinSep '/' (resolveSegments segments)
        let path := if path = "" then "/" else path
        urlunsplit ⟨u.scheme, netloc, path, u.query, u.fragment⟩

example : urljoin "https://x.test/page" "#section" = "https://x.test/page#section" := by decide
example : urljoin "https://x.test/page" "mailto:a@b.com" = "mailto:a@b.com" := by decide
example : urljoin "https://x.test/page" "https://x.test/y" = "https://x.test/y" := by decide
example : urljoin "https://a.test/b/c" "d" = "https://a.test/b/d" := by decide
example : urljoin "https://a.test/b/" "../x" = "https://a.test/x" := by decide
example : urljoin "https://a.test/b/c" "/d?q=1" = "https://a.test/d?q=1" := by decide
example : (urlsplit "" "HTTPS://x.test/y").scheme = "https" := by decide
example : pyStrip "  https://a.test " = "https://a.test" := by decide
example : pyInt? " -3 " = some (-3) := by decide
example : pyInt? "50" = some 50 := by decide
example : pyInt? "x7" = none := by decide
example : strStartsWith "https" "http" = true := by decide
example : strStartsWith "mailto" "http" = false := by decide

/-! ## Frontier (`self.queue` + `self.visited`) -/

/-- The BFS bookkeeping of `AggressiveCrawlerGUI`: the pending `deque`
and the `visited` set (a list here; only membership is used). -/
structure Frontier where
  queue : List Url
  visited : List Url
deriving DecidableEq

/-- One check-and-add of the link-extraction loop (g4.py lines 190–192):
`if absolute_url not in self.visited: visited.add; queue.append`. -/
def offer (fr : Frontier) (u : Url) : Frontier :=
  if u ∈ fr.visited then fr
  else { queue := fr.queue ++ [u], visited := u :: fr.visited }

/-- The link-extraction loop of `scrape_page` (g4.py lines 183–192):
for each anchor, skip a missing or empty `href` (`if not href: continue`),
resolve against the page URL, keep it only when the parsed scheme starts
with `http`, then check-and-add. -/
def processLinks (fr : Frontier) (pageUrl : Url) (hrefs : List (Option String)) : Frontier :=
  hrefs.foldl
    (fun fr h =>
      match h with
      | none => fr
      | some href =>
        if href = "" then fr
        else
          let absoluteUrl := urljoin pageUrl href
          if strStartsWith (urlsplit "" absoluteUrl).scheme "http" then offer fr absoluteUrl
          else fr)
    fr

/-- Frontier operations as a trace: the `offer` of link extraction, and the
`popleft` of the BFS loop. -/
inductive FOp
  | offer (u : Url)
  | pop
deriving DecidableEq

/-- One frontier operation, accumulating the list of popped URLs; `pop` on
an empty queue is never performed by the loop (modelled as a no-op). -/
def frontierStep : Frontier × List Url → FOp → Frontier × List Url
  | (fr, popped), .offer u => (offer fr u, popped)
  | (fr, popped), .pop =>
    match fr.queue with
    | [] => (fr, popped)
    | u :: rest => ({ fr with queue := rest }, popped ++ [u])

/-- A whole run of frontier operations from the state `start_scraping`
leaves behind (queue and visited cleared, then the seed added to both,
g4.py lines 110–111 and 125–126). -/
def frontierRun (seed : Url) (ops : List FOp) : Frontier × List Url :=
  ops.foldl frontierStep ({ queue := [seed], visited := [seed] }, [])

/-! ## Crawl loop (`run_bfs` / `scrape_page`) -/

/-- Failure classes of `requests.get` + `raise_for_status`
(all are `requests.exceptions.RequestException`s). -/
inductive FetchError
  | timeout
  | connectionFailed
  | httpStatusError (code : Nat)
  | other
deriving DecidableEq

/-- What the crawler extracts from a successfully fetched page:
`soup.get_text("\n").strip()` and the `href` attribute of each
`<a>` element in document order (`none` when the attribute is absent). -/
structure PageData where
  text : String
  hrefs : List (Option String)
deriving DecidableEq

/-- Network oracle: the outcome of fetching each URL during the run. -/
abbrev FetchOracle := Url → Except FetchError PageData

/-- Filesystem oracle: whether the `open(self.output_file, "a")` append
performed while scraping the given URL succeeds. -/
abbrev WriteOracle := Url → Bool

/-- Lines the crawler reports while running: `[SCRAPED] Page #n: url`,
`[ERROR] url => e`, and the final `[INFO] BFS finished. Total pages
scraped: n`. -/
inductive Event
  | pageScraped (pageNumber : Nat) (url : Url)
  | pageError (url : Url)
  | runFinished (totalPages : Nat)
deriving DecidableEq

/-- The header written by `start_scraping` when it opens the output file. -/
def headerLine : String := "=== Begin scraping ===\n"

/-- The bytes appended for one scraped page (g4.py lines 174–177):
`\n=== Page #{page_id}: {url} ===\n\n` + text + `\n\n`. -/
def recordBlock (pageId : Nat) (url : Url) (text : String) : String :=
  "\n=== Page #" ++ toString pageId ++ ": " ++ url ++ " ===\n\n" ++ text ++ "\n\n"

/-- The mutable state the BFS loop works on: the frontier fields, the
output file's contents, and the `running` flag. -/
structure CrawlState where
  frontier : Frontier
  file : String
  running : Bool
deriving DecidableEq

/-- Outcome of `scrape_page` on one URL: a caught
`RequestException` (returns `False`), an uncaught `OSError` from the
append `open` (propagates), or success with the new file contents and
frontier. -/
inductive ScrapeResult
  | fetchFailed
  | ioError
  | scraped (newFile : String) (newFrontier : Frontier)
deriving DecidableEq

/-- `scrape_page(url, page_id)` (g4.py lines 157–194): GET the URL —
on a `RequestException` log and return `False`; otherwise append the
record to the file (an `OSError` here is not caught), then extract and
offer links, and return `True`. -/
def scrape_page (fetch : FetchOracle) (write : WriteOracle) (st : CrawlState)
    (url : Url) (pageId : Nat) : ScrapeResult :=
  match fetch url with
  | .error _ => .fetchFailed
  | .ok page =>
    if write url then
      .scraped (st.file ++ recordBlock pageId url page.text)
        (processLinks st.frontier url page.hrefs)
    else .ioError

/-- Result of running the BFS loop: normal completion (the finish line is
reported and `running` is cleared), an uncaught exception escaping the
loop (the events reported before it; no finish line), or exhaustion of
the step bound. -/
inductive RunResult
  | finished (events : List Event) (pageCount : Nat) (st : CrawlState)
  | crashed (events : List Event) (st : CrawlState)
  | outOfFuel
deriving DecidableEq

/-- Prefix one reported line onto the rest of the run's report. -/
def prependEvent (e : Event) : RunResult → RunResult
  | .finished evs count st => .finished (e :: evs) count st
  | .crashed evs st => .crashed (e :: evs) st
  | .outOfFuel => .outOfFuel

/-- `run_bfs(max_pages)` (g4.py lines 145–155):
`while self.running and page_count < max_pages and self.queue:` pop the
head, scrape it (page id `page_count + 1`), increment on success; after
the loop report the finish line and clear `running`.  `fuel` bounds the
number of iterations considered; `maxPages` is a Python `int`. -/
def run_bfs (fetch : FetchOracle) (write : WriteOracle) (maxPages : Int) :
    Nat → CrawlState → Nat → RunResult
  | 0, _, _ => .outOfFuel
  | fuel + 1, st, pageCount =>
    if st.running ∧ (pageCount : Int) < maxPages then
      match st.frontier.queue with
      | [] => .finished [.runFinished pageCount] pageCount { st with running := false }
      | currentUrl :: rest =>
        let st1 : CrawlState := { st with frontier := { st.frontier with queue := rest } }
        match scrape_page fetch write st1 currentUrl (pageCount + 1) with
        | .fetchFailed =>
          prependEvent (.pageError currentUrl)
            (run_bfs fetch write maxPages fuel st1 pageCount)
        | .ioError => .crashed [] st1
        | .scraped newFile newFrontier =>
          prependEvent (.pageScraped (pageCount + 1) currentUrl)
            (run_bfs fetch write maxPages fuel
              { st1 with file := newFile, frontier := newFrontier } (pageCount + 1))
    else .finished [.runFinished pageCount] pageCount { st with running := false }

/-! ## Event bookkeeping -/

def isPageScraped : Event → Bool
  | .pageScraped _ _ => true
  | _ => false

def isRunFinished : Event → Bool
  | .runFinished _ => true
  | _ => false

/-- Page numbers of the scraped-page lines, in report order. -/
def scrapedNums (evs : List Event) : List Nat :=
  evs.filterMap fun e =>
    match e with
    | .pageScraped n _ => some n
    | _ => none

/-- The text the extractor produces for a URL under the given oracle. -/
def scrapedText (fetch : FetchOracle) (u : Url) : String :=
  match fetch u with
  | .ok d => d.text
  | .error _ => ""

/-- Concatenation of a list of strings. -/
def strJoin : List String → String
  | [] => ""
  | s :: l => s ++ strJoin l

/-- The record blocks corresponding to the scraped-page lines of a report,
in report order. -/
def scrapedRecs (fetch : FetchOracle) (evs : List Event) : List String :=
  evs.filterMap fun e =>
    match e with
    | .pageScraped n u => some (recordBlock n u (scrapedText fetch u))
    | _ => none

/-- The URL a reported line names, if any. -/
def eventUrl : Event → Option Url
  | .pageScraped _ u => some u
  | .pageError u => some u
  | .runFinished _ => none

def eventUrls (evs : List Event) : List Url := evs.filterMap eventUrl

/-- The lines reported by a run result. -/
def resultEvents : RunResult → List Event
  | .finished evs _ _ => evs
  | .crashed evs _ => evs
  | .outOfFuel => []

/-! ## `start_scraping` and the filesystem -/

/-- The filesystem as seen through `open`: a write log, newest first. -/
abbrev Fs := List (String × String)

/-- Contents at a path (latest write wins). -/
def getFs : Fs → String → Option String
  | [], _ => none
  | (p, c) :: fs, path => if p = path then some c else getFs fs path

/-- `open(path, "w")` followed by writing `content`: create or truncate. -/
def setFs (fs : Fs) (path content : String) : Fs := (path, content) :: fs

/-- The fields of `AggressiveCrawlerGUI` that `start_scraping` reads and
writes: the two text entries, the append checkbox, the output path, the
BFS bookkeeping and the `running` flag. -/
structure GuiState where
  urlEntry : String
  maxPagesEntry : String
  useExisting : Bool
  outputFile : String
  frontier : Frontier
  running : Bool
deriving DecidableEq

/-- How `start_scraping` returns: an error dialog for an empty URL, an
error dialog for a non-integer page entry, or success — the BFS thread
is started on `run_bfs(maxPages)`.  Each constructor carries the object
state at the return point. -/
inductive StartResult
  | errorEmptyUrl (st : GuiState)
  | errorBadInt (st : GuiState)
  | started (st : GuiState) (maxPages : Int)
deriving DecidableEq

/-- `start_scraping` (g4.py lines 104–139).  `newName` is the value
`get_timestamped_filename()` would produce (it depends on the clock).
In order: pick a fresh output name unless appending; clear queue and
visited; reject an empty (stripped) URL; parse the page entry with
`int(...)` (modelled by `pyInt?` — no positivity check exists);
seed queue and visited; open the output file with mode `"w"` and write
the header; set `running` and start the BFS thread. -/
def start_scraping (newName : String) (st : GuiState) (fs : Fs) : StartResult × Fs :=
  let st := if ¬ st.useExisting then { st with outputFile := newName } else st
  let st := { st with frontier := { queue := [], visited := [] } }
  let url := pyStrip st.urlEntry
  if url = "" then (.errorEmptyUrl st, fs)
  else
    match pyInt? st.maxPagesEntry with
    | none => (.errorBadInt st, fs)
    | some maxPages =>
      let st := { st with frontier := { queue := [url], visited := [url] } }
      let fs := setFs fs st.outputFile headerLine
      (.started { st with running := true } maxPages, fs)

/-! ## Frontier invariants -/

/-- The URLs that have gone through the queue (popped or still pending)
are pairwise distinct and all recorded in the visited set. -/
def FrontierInv (s : Frontier × List Url) : Prop :=
  (s.2 ++ s.1.queue).Nodup ∧ ∀ u ∈ s.2 ++ s.1.queue, u ∈ s.1.visited

theorem offer_visited_noop {fr : Frontier} {u : Url} (h : u ∈ fr.visited) :
    offer fr u = fr := by
  simp [offer, h]

theorem frontierStep_inv (s : Frontier × List Url) (op : FOp) (h : FrontierInv s) :
    FrontierInv (frontierStep s op) := by
  obtain ⟨fr, popped⟩ := s
  obtain ⟨hnd, hmem⟩ := h
  cases op with
  | offer u =>
    by_cases hv : u ∈ fr.visited
    · have hstep : frontierStep (fr, popped) (.offer u) = (fr, popped) := by
        simp [frontierStep, offer, hv]
      rw [hstep]
      exact ⟨hnd, hmem⟩
    · have hstep : frontierStep (fr, popped) (.offer u) =
          ({ queue := fr.queue ++ [u], visited := u :: fr.visited }, popped) := by
        simp [frontierStep, offer, hv]
      rw [hstep]
      refine ⟨?_, ?_⟩
      · show (popped ++ (fr.queue ++ [u])).Nodup
        rw [← List.append_assoc, List.nodup_append]
        refine ⟨hnd, List.nodup_singleton u, ?_⟩
        intro x hx hxu
        have hxe : x = u := by simpa using hxu
        exact hv (hxe ▸ hmem x hx)
      · intro x hx
        show x ∈ u :: fr.visited
        rw [← List.append_assoc] at hx
        rcases List.mem_append.mp hx with hx | hx
        · exact List.mem_cons_of_mem u (hmem x hx)
        · have hxe : x = u := by simpa using hx
          subst hxe
          exact List.mem_cons_self x _
  | pop =>
    cases hq : fr.queue with
    | nil =>
      have hstep : frontierStep (fr, popped) .pop = (fr, popped) := by
        simp [frontierStep, hq]
      rw [hstep]
      exact ⟨hnd, hmem⟩
    | cons u rest =>
      have hstep : frontierStep (fr, popped) .pop =
          ({ fr with queue := rest }, popped ++ [u]) := by
        simp [frontierStep, hq]
      rw [hstep]
      rw [hq] at hnd hmem
      refine ⟨?_, ?_⟩
      · show ((popped ++ [u]) ++ rest).Nodup
        rw [List.append_assoc]
        exact hnd
      · intro x hx
        show x ∈ fr.visited
        rw [List.append_assoc] at hx
        exact hmem x hx

theorem frontierRun_inv (seed : Url) (ops : List FOp) :
    FrontierInv (frontierRun seed ops) := by
  have step : ∀ (l : List FOp) (s : Frontier × List Url),
      FrontierInv s → FrontierInv (l.foldl frontierStep s) := by
    intro l
    induction l with
    | nil => intro s h; exact h
    | cons op l ih => intro s h; exact ih _ (frontierStep_inv s op h)
  refine step ops _ ⟨?_, ?_⟩
  · simp
  · intro u hu
    simpa using hu

/-- C1: across any sequence of frontier operations of a run (offers from
link extraction, pops by the BFS loop, with the seed URL placed in both
queue and visited set at start), the popped URLs are pairwise distinct,
the pending queue holds no duplicate, and offering a URL that is already
in the visited set leaves the frontier unchanged. -/
theorem frontier_no_duplicate_enqueue (seed : Url) (ops : List FOp)
    (fr : Frontier) (u : Url) (h : u ∈ fr.visited) :
    (frontierRun seed ops).2.Nodup ∧ (frontierRun seed ops).1.queue.Nodup ∧
      offer fr u = fr := by
  obtain ⟨hnd, _⟩ := frontierRun_inv seed ops
  rw [List.nodup_append] at hnd
  exact ⟨hnd.1, hnd.2.1, offer_visited_noop h⟩

theorem frontier_no_duplicate_enqueue_witness :
    (frontierRun "https://s.test/" [FOp.offer "https://a.test/",
        FOp.offer "https://s.test/", FOp.pop, FOp.pop]).2.Nodup ∧
      (frontierRun "https://s.test/" [FOp.offer "https://a.test/",
        FOp.offer "https://s.test/", FOp.pop, FOp.pop]).1.queue.Nodup ∧
      offer ⟨["https://q.test/"], ["https://u.test/"]⟩ "https://u.test/" =
        ⟨["https://q.test/"], ["https://u.test/"]⟩ :=
  frontier_no_duplicate_enqueue "https://s.test/"
    [FOp.offer "https://a.test/", FOp.offer "https://s.test/", FOp.pop, FOp.pop]
    ⟨["https://q.test/"], ["https://u.test/"]⟩ "https://u.test/" (by decide)

/-! ## BFS loop invariants -/

theorem prependEvent_finished {e : Event} {r : RunResult} {evs : List Event}
    {count : Nat} {st' : CrawlState} (h : prependEvent e r = .finished evs count st') :
    ∃ evs1, evs = e :: evs1 ∧ r = .finished evs1 count st' := by
  cases r with
  | finished evs1 c1 s1 =>
    obtain ⟨h1, h2, h3⟩ := RunResult.finished.inj h
    exact ⟨evs1, by rw [← h1], by rw [h2, h3]⟩
  | crashed _ _ => exact absurd h (by simp [prependEvent])
  | outOfFuel => exact absurd h (by simp [prependEvent])

theorem prependEvent_crashed {e : Event} {r : RunResult} {evs : List Event}
    {st' : CrawlState} (h : prependEvent e r = .crashed evs st') :
    ∃ evs1, evs = e :: evs1 ∧ r = .crashed evs1 st' := by
  cases r with
  | crashed evs1 s1 =>
    obtain ⟨h1, h2⟩ := RunResult.crashed.inj h
    exact ⟨evs1, by rw [← h1], by rw [h2]⟩
  | finished _ _ _ => exact absurd h (by simp [prependEvent])
  | outOfFuel => exact absurd h (by simp [prependEvent])

theorem run_bfs_finished_inv (fetch : FetchOracle) (write : WriteOracle) (mp : Int) :
    ∀ (fuel : Nat) (st : CrawlState) (c : Nat) (evs : List Event) (count : Nat)
      (st' : CrawlState),
      run_bfs fetch write mp fuel st c = .finished evs count st' →
      evs.countP isRunFinished = 1 ∧
      scrapedNums evs = List.range' (c + 1) (count - c) ∧
      c ≤ count ∧ (count = c ∨ (count : Int) ≤ mp) ∧
      st'.file = st.file ++ strJoin (scrapedRecs fetch evs) ∧
      st'.running = false ∧
      evs.getLast? = some (.runFinished count) := by
  intro fuel
  induction fuel with
  | zero =>
    intro st c evs count st' h
    simp [run_bfs] at h
  | succ n ih =>
    intro st c evs count st' h
    rw [run_bfs] at h
    split at h
    case isFalse hcond =>
      obtain ⟨hevs, hcount, hst⟩ := RunResult.finished.inj h
      subst hevs; subst hcount; subst hst
      refine ⟨by simp [List.countP_cons, isRunFinished], ?_, le_refl c, Or.inl rfl, ?_, rfl,
        by simp⟩
      · simp [scrapedNums, Nat.sub_self, List.range']
      · simp [scrapedRecs, strJoin, String.append_empty]
    case isTrue hcond =>
      split at h
      case h_1 hq =>
        obtain ⟨hevs, hcount, hst⟩ := RunResult.finished.inj h
        subst hevs; subst hcount; subst hst
        refine ⟨by simp [List.countP_cons, isRunFinished], ?_, le_refl c, Or.inl rfl, ?_, rfl,
          by simp⟩
        · simp [scrapedNums, Nat.sub_self, List.range']
        · simp [scrapedRecs, strJoin, String.append_empty]
      case h_2 currentUrl rest hq =>
        dsimp only at h
        split at h
        case h_1 heq =>
          -- fetch failed: a PageError line, then the rest of the run
          obtain ⟨evs1, hevs, hr⟩ := prependEvent_finished h
          subst hevs
          obtain ⟨ih1, ih2, ih3, ih4, ih5, ih6, ih7⟩ := ih _ _ _ _ _ hr
          refine ⟨?_, ?_, ih3, ih4, ?_, ih6, ?_⟩
          · simpa [List.countP_cons, isRunFinished] using ih1
          · simpa [scrapedNums, List.filterMap_cons] using ih2
          · simpa [scrapedRecs, List.filterMap_cons] using ih5
          · cases evs1 with
            | nil => simp at ih7
            | cons b l => rw [List.getLast?_cons_cons]; exact ih7
        case h_2 heq =>
          exact absurd h (by simp)
        case h_3 newFile newFrontier heq =>
          -- decompose the successful scrape
          rcases hfe : fetch currentUrl with e | page
          · simp only [scrape_page, hfe] at heq
            exact absurd heq (by simp)
          · simp only [scrape_page, hfe] at heq
            by_cases hw : write currentUrl = true
            · rw [if_pos hw] at heq
              obtain ⟨hnf, hnfr⟩ := ScrapeResult.scraped.inj heq
              subst hnf; subst hnfr
              obtain ⟨evs1, hevs, hr⟩ := prependEvent_finished h
              subst hevs
              obtain ⟨ih1, ih2, ih3, ih4, ih5, ih6, ih7⟩ := ih _ _ _ _ _ hr
              have hcle : c + 1 ≤ count := ih3
              refine ⟨?_, ?_, by omega, ?_, ?_, ih6, ?_⟩
              · simpa [List.countP_cons, isRunFinished] using ih1
              · have hsub : count - c = (count - (c + 1)) + 1 := by omega
                rw [hsub, List.range'_succ]
                simpa [scrapedNums, List.filterMap_cons] using ih2
              · right
                rcases ih4 with h1 | h1
                · omega
                · exact h1
              · rw [ih5]
                simp only [scrapedRecs, List.filterMap_cons, scrapedText, hfe]
                rw [strJoin, String.append_assoc]
              · cases evs1 with
                | nil => simp at ih7
                | cons b l => rw [List.getLast?_cons_cons]; exact ih7
            · rw [if_neg hw] at heq
              exact absurd heq (by simp)

theorem run_bfs_crashed_inv (fetch : FetchOracle) (write : WriteOracle) (mp : Int) :
    ∀ (fuel : Nat) (st : CrawlState) (c : Nat) (evs : List Event) (st' : CrawlState),
      run_bfs fetch write mp fuel st c = .crashed evs st' →
      evs.countP isRunFinished = 0 ∧
      st'.file = st.file ++ strJoin (scrapedRecs fetch evs) ∧
      st'.running = st.running := by
  intro fuel
  induction fuel with
  | zero =>
    intro st c evs st' h
    simp [run_bfs] at h
  | succ n ih =>
    intro st c evs st' h
    rw [run_bfs] at h
    split at h
    case isFalse hcond => exact absurd h (by simp)
    case isTrue hcond =>
      split at h
      case h_1 hq => exact absurd h (by simp)
      case h_2 currentUrl rest hq =>
        dsimp only at h
        split at h
        case h_1 heq =>
          obtain ⟨evs1, hevs, hr⟩ := prependEvent_crashed h
          subst hevs
          obtain ⟨ih1, ih2, ih3⟩ := ih _ _ _ _ hr
          refine ⟨?_, ?_, ih3⟩
          · simpa [List.countP_cons, isRunFinished] using ih1
          · simpa [scrapedRecs, List.filterMap_cons] using ih2
        case h_2 heq =>
          obtain ⟨hevs, hst⟩ := RunResult.crashed.inj h
          subst hevs; subst hst
          refine ⟨rfl, ?_, rfl⟩
          simp [scrapedRecs, strJoin, String.append_empty]
        case h_3 newFile newFrontier heq =>
          rcases hfe : fetch currentUrl with e | page
          · simp only [scrape_page, hfe] at heq
            exact absurd heq (by simp)
          · simp only [scrape_page, hfe] at heq
            by_cases hw : write currentUrl = true
            · rw [if_pos hw] at heq
              obtain ⟨hnf, hnfr⟩ := ScrapeResult.scraped.inj heq
              subst hnf; subst hnfr
              obtain ⟨evs1, hevs, hr⟩ := prependEvent_crashed h
              subst hevs
              obtain ⟨ih1, ih2, ih3⟩ := ih _ _ _ _ hr
              refine ⟨?_, ?_, ih3⟩
              · simpa [List.countP_cons, isRunFinished] using ih1
              · rw [ih2]
                simp only [scrapedRecs, List.filterMap_cons, scrapedText, hfe]
                rw [strJoin, String.append_assoc]
            · rw [if_neg hw] at heq
              exact absurd heq (by simp)

/-! ## A once-visited URL is never offered, popped or reported again -/

theorem offer_not_mem {fr : Frontier} {u : Url} (v : Url)
    (hv : u ∈ fr.visited) (hq : u ∉ fr.queue) :
    u ∈ (offer fr v).visited ∧ u ∉ (offer fr v).queue := by
  by_cases hvv : v ∈ fr.visited
  · rw [offer_visited_noop hvv]
    exact ⟨hv, hq⟩
  · simp only [offer, if_neg hvv]
    refine ⟨List.mem_cons_of_mem v hv, ?_⟩
    intro hc
    rcases List.mem_append.mp hc with hc | hc
    · exact hq hc
    · have he : u = v := by simpa using hc
      exact hvv (he ▸ hv)

theorem processLinks_not_mem (u : Url) :
    ∀ (hrefs : List (Option String)) (fr : Frontier) (base : Url),
      u ∈ fr.visited → u ∉ fr.queue →
      u ∈ (processLinks fr base hrefs).visited ∧
        u ∉ (processLinks fr base hrefs).queue := by
  intro hrefs
  induction hrefs with
  | nil =>
    intro fr base hv hq
    exact ⟨hv, hq⟩
  | cons h hs ih =>
    intro fr base hv hq
    cases h with
    | none =>
      have hstep : processLinks fr base (none :: hs) = processLinks fr base hs := by
        simp [processLinks]
      rw [hstep]
      exact ih fr base hv hq
    | some href =>
      by_cases he : href = ""
      · subst he
        have hstep : processLinks fr base (some "" :: hs) = processLinks fr base hs := by
          simp [processLinks]
        rw [hstep]
        exact ih fr base hv hq
      · by_cases hsch : strStartsWith (urlsplit "" (urljoin base href)).scheme "http" = true
        · have hstep : processLinks fr base (some href :: hs) =
              processLinks (offer fr (urljoin base href)) base hs := by
            simp [processLinks, he, hsch]
          rw [hstep]
          obtain ⟨hv1, hq1⟩ := offer_not_mem (urljoin base href) hv hq
          exact ih _ base hv1 hq1
        · have hstep : processLinks fr base (some href :: hs) =
              processLinks fr base hs := by
            simp [processLinks, he, hsch]
          rw [hstep]
          exact ih fr base hv hq

theorem not_mem_eventUrls_prepend {u : Url} {e : Event} {r : RunResult}
    (hne : eventUrl e ≠ some u) (hr : u ∉ eventUrls (resultEvents r)) :
    u ∉ eventUrls (resultEvents (prependEvent e r)) := by
  intro hc
  cases r with
  | finished evs cnt s =>
    simp only [prependEvent, resultEvents, eventUrls] at hc hr
    rcases List.mem_filterMap.mp hc with ⟨a, ha, hau⟩
    rcases List.mem_cons.mp ha with rfl | ha
    · exact hne hau
    · exact hr (List.mem_filterMap.mpr ⟨a, ha, hau⟩)
  | crashed evs s =>
    simp only [prependEvent, resultEvents, eventUrls] at hc hr
    rcases List.mem_filterMap.mp hc with ⟨a, ha, hau⟩
    rcases List.mem_cons.mp ha with rfl | ha
    · exact hne hau
    · exact hr (List.mem_filterMap.mpr ⟨a, ha, hau⟩)
  | outOfFuel =>
    simp [prependEvent, resultEvents, eventUrls] at hc

theorem run_bfs_no_revisit (fetch : FetchOracle) (write : WriteOracle) (mp : Int)
    (u : Url) :
    ∀ (fuel : Nat) (st : CrawlState) (c : Nat),
      u ∈ st.frontier.visited → u ∉ st.frontier.queue →
      u ∉ eventUrls (resultEvents (run_bfs fetch write mp fuel st c)) := by
  intro fuel
  induction fuel with
  | zero =>
    intro st c hv hq
    simp [run_bfs, resultEvents, eventUrls]
  | succ n ih =>
    intro st c hv hq
    rw [run_bfs]
    split
    case isFalse hcond => simp [resultEvents, eventUrls, eventUrl]
    case isTrue hcond =>
      split
      case h_1 hqe => simp [resultEvents, eventUrls, eventUrl]
      case h_2 currentUrl rest hqe =>
        rw [hqe] at hq
        have hne : u ≠ currentUrl := fun hc => hq (hc ▸ List.mem_cons_self _ _)
        have hqr : u ∉ rest := fun hc => hq (List.mem_cons_of_mem _ hc)
        dsimp only
        split
        case h_1 heq =>
          refine not_mem_eventUrls_prepend ?_ (ih _ c hv hqr)
          simp [eventUrl]
          exact fun hc => hne hc.symm
        case h_2 heq =>
          simp [resultEvents, eventUrls]
        case h_3 newFile newFrontier heq =>
          rcases hfe : fetch currentUrl with e | page
          · simp only [scrape_page, hfe] at heq
            exact absurd heq (by simp)
          · simp only [scrape_page, hfe] at heq
            by_cases hw : write currentUrl = true
            · rw [if_pos hw] at heq
              obtain ⟨hnf, hnfr⟩ := ScrapeResult.scraped.inj heq
              subst hnf; subst hnfr
              obtain ⟨hv1, hq1⟩ := processLinks_not_mem u page.hrefs
                { queue := rest, visited := st.frontier.visited } currentUrl hv hqr
              refine not_mem_eventUrls_prepend ?_ (ih _ (c + 1) hv1 hq1)
              simp [eventUrl]
              exact fun hc => hne hc.symm
            · rw [if_neg hw] at heq
              exact absurd heq (by simp)

/-! ## `start_scraping` behavior -/

/-- When the stripped URL entry is nonempty and the page entry parses as an
integer, `start_scraping` always reaches the success path: it resets and
seeds the frontier, truncates the output file to the header, and starts
the BFS thread — regardless of the `running` flag and of the sign of the
parsed budget. -/
theorem start_scraping_success (newName : String) (st : GuiState) (fs : Fs)
    (n : Int) (hurl : pyStrip st.urlEntry ≠ "")
    (hint : pyInt? st.maxPagesEntry = some n) :
    start_scraping newName st fs =
      (.started
        { urlEntry := st.urlEntry, maxPagesEntry := st.maxPagesEntry,
          useExisting := st.useExisting,
          outputFile := if st.useExisting then st.outputFile else newName,
          frontier := ⟨[pyStrip st.urlEntry], [pyStrip st.urlEntry]⟩,
          running := true } n,
       setFs fs (if st.useExisting then st.outputFile else newName) headerLine) := by
  by_cases hu : st.useExisting
  · simp [start_scraping, hu, hurl, hint]
  · simp [start_scraping, hu, hurl, hint]

/-- Number of scraped-page lines in a report, as a length. -/
theorem scrapedNums_length (evs : List Event) :
    (scrapedNums evs).length = evs.countP isPageScraped := by
  induction evs with
  | nil => simp [scrapedNums]
  | cons e l ih =>
    cases e <;>
      simp [scrapedNums, List.filterMap_cons, List.countP_cons, isPageScraped] at * <;>
      omega

/-- A two-page site used to exercise the model on concrete runs. -/
def wFetch : FetchOracle := fun u =>
  if u = "https://s.test/" then .ok ⟨"hello", [some "/p2"]⟩
  else if u = "https://s.test/p2" then .ok ⟨"bye", []⟩
  else .error .other

/-! ## Claims -/

/-- C3: when the BFS loop finishes, the reported total equals the number of
scraped-page lines of the run (only a successful fetch-and-write produces
such a line and increments the counter), the finish line reports that same
total, and for a nonnegative budget the total never exceeds it. -/
theorem run_count_matches_scraped (fetch : FetchOracle) (write : WriteOracle)
    (mp : Int) (fuel : Nat) (st : CrawlState) (evs : List Event) (count : Nat)
    (st' : CrawlState)
    (h : run_bfs fetch write mp fuel st 0 = .finished evs count st') :
    count = evs.countP isPageScraped ∧
    evs.getLast? = some (.runFinished count) ∧
    (0 ≤ mp → (count : Int) ≤ mp) := by
  obtain ⟨_, h2, _, h4, _, _, h7⟩ :=
    run_bfs_finished_inv fetch write mp fuel st 0 evs count st' h
  refine ⟨?_, h7, ?_⟩
  · rw [← scrapedNums_length, h2]
    simp
  · intro hmp
    rcases h4 with h4 | h4 <;> omega

theorem run_count_matches_scraped_witness :
    (2 : Nat) = List.countP isPageScraped
        [Event.pageScraped 1 "https://s.test/",
         Event.pageScraped 2 "https://s.test/p2", Event.runFinished 2] ∧
    List.getLast? [Event.pageScraped 1 "https://s.test/",
        Event.pageScraped 2 "https://s.test/p2", Event.runFinished 2]
      = some (Event.runFinished 2) ∧
    ((0 : Int) ≤ 5 → ((2 : Nat) : Int) ≤ 5) :=
  run_count_matches_scraped wFetch (fun _ => true) 5 10
    ⟨⟨["https://s.test/"], ["https://s.test/"]⟩, headerLine, true⟩
    [Event.pageScraped 1 "https://s.test/",
     Event.pageScraped 2 "https://s.test/p2", Event.runFinished 2] 2
    ⟨⟨[], ["https://s.test/p2", "https://s.test/"]⟩,
     headerLine ++ recordBlock 1 "https://s.test/" "hello"
       ++ recordBlock 2 "https://s.test/p2" "bye", false⟩
    (by decide)

/-- C6: when the fetch of the popped URL fails, the failure is caught: the
run reports a PageError line for it and continues as the same loop on the
remaining queue with the page counter unchanged, and the failed URL is
never fetched (hence never reported) again in the rest of the run. -/
theorem fetch_error_handled (fetch : FetchOracle) (write : WriteOracle)
    (mp : Int) (fuel : Nat) (st : CrawlState) (c : Nat) (url : Url)
    (rest : List Url) (e : FetchError)
    (hrun : st.running = true) (hc : (c : Int) < mp)
    (hq : st.frontier.queue = url :: rest) (hf : fetch url = .error e)
    (hv : url ∈ st.frontier.visited) (hnr : url ∉ rest) :
    run_bfs fetch write mp (fuel + 1) st c =
      prependEvent (.pageError url)
        (run_bfs fetch write mp fuel
          { st with frontier := { st.frontier with queue := rest } } c) ∧
    url ∉ eventUrls (resultEvents (run_bfs fetch write mp fuel
      { st with frontier := { st.frontier with queue := rest } } c)) := by
  constructor
  · rw [run_bfs]
    simp [hrun, hc, hq, scrape_page, hf]
  · exact run_bfs_no_revisit fetch write mp url fuel _ c hv hnr

theorem fetch_error_handled_witness :
    run_bfs wFetch (fun _ => true) 5 (3 + 1)
      ⟨⟨["https://bad.test/"], ["https://bad.test/"]⟩, headerLine, true⟩ 0 =
      prependEvent (.pageError "https://bad.test/")
        (run_bfs wFetch (fun _ => true) 5 3
          ⟨⟨[], ["https://bad.test/"]⟩, headerLine, true⟩ 0) ∧
    "https://bad.test/" ∉ eventUrls (resultEvents (run_bfs wFetch (fun _ => true) 5 3
      ⟨⟨[], ["https://bad.test/"]⟩, headerLine, true⟩ 0)) :=
  fetch_error_handled wFetch (fun _ => true) 5 3
    ⟨⟨["https://bad.test/"], ["https://bad.test/"]⟩, headerLine, true⟩ 0
    "https://bad.test/" [] .other rfl (by decide) rfl rfl (by decide) (by decide)

/-- C8 (amended): a normal exit of the BFS loop (budget reached, frontier
exhausted, or `running` cleared) reports the finish line exactly once, and
a crash never corrupts records already written — the file still consists
of the prior contents plus complete record blocks; but an uncaught
corpus-file I/O error exits the loop with no finish line at all. -/
theorem run_exit_reports (fetch : FetchOracle) (write : WriteOracle) (mp : Int)
    (fuel : Nat) (st : CrawlState) (c : Nat) :
    (∀ evs count st', run_bfs fetch write mp fuel st c = .finished evs count st' →
      evs.countP isRunFinished = 1) ∧
    (∀ evs st', run_bfs fetch write mp fuel st c = .crashed evs st' →
      evs.countP isRunFinished = 0 ∧
      st'.file = st.file ++ strJoin (scrapedRecs fetch evs)) := by
  constructor
  · intro evs count st' h
    exact (run_bfs_finished_inv fetch write mp fuel st c evs count st' h).1
  · intro evs st' h
    obtain ⟨h1, h2, _⟩ := run_bfs_crashed_inv fetch write mp fuel st c evs st' h
    exact ⟨h1, h2⟩

theorem run_exit_reports_witness :
    List.countP isRunFinished [Event.runFinished 0] = 1 ∧
    (List.countP isRunFinished ([] : List Event) = 0 ∧
      (⟨⟨[], ["https://s.test/"]⟩, headerLine, true⟩ : CrawlState).file =
        (⟨⟨["https://s.test/"], ["https://s.test/"]⟩, headerLine, true⟩ :
            CrawlState).file
          ++ strJoin (scrapedRecs (fun _ => Except.ok ⟨"text", []⟩) [])) :=
  ⟨(run_exit_reports (fun _ => Except.ok ⟨"text", []⟩) (fun _ => false) 0 1
      ⟨⟨["https://s.test/"], ["https://s.test/"]⟩, headerLine, true⟩ 0).1
      [Event.runFinished 0] 0
      ⟨⟨["https://s.test/"], ["https://s.test/"]⟩, headerLine, false⟩ (by decide),
   (run_exit_reports (fun _ => Except.ok ⟨"text", []⟩) (fun _ => false) 5 1
      ⟨⟨["https://s.test/"], ["https://s.test/"]⟩, headerLine, true⟩ 0).2
      [] ⟨⟨[], ["https://s.test/"]⟩, headerLine, true⟩ (by decide)⟩

/-- C8 is false as stated: a corpus-file I/O error during the record append
exits the loop with no finish-line report at all (and leaves `running`
set). -/
theorem io_error_exits_without_report :
    run_bfs (fun _ => Except.ok ⟨"text", []⟩) (fun _ => false) 5 10
      ⟨⟨["https://s.test/"], ["https://s.test/"]⟩, headerLine, true⟩ 0
      = .crashed [] ⟨⟨[], ["https://s.test/"]⟩, headerLine, true⟩ ∧
    List.countP isRunFinished (resultEvents
      (run_bfs (fun _ => Except.ok ⟨"text", []⟩) (fun _ => false) 5 10
        ⟨⟨["https://s.test/"], ["https://s.test/"]⟩, headerLine, true⟩ 0)) = 0 :=
  ⟨by decide, by decide⟩

/-- C9: starting from the freshly created file (header only), a finished
run leaves the file as the header followed by exactly one record block —
delimiter line with the 1-based page number and URL, the extracted text,
and the blank-line separator — per scraped-page line, in scrape order,
numbered 1, 2, …, count. -/
theorem corpus_file_format (fetch : FetchOracle) (write : WriteOracle)
    (mp : Int) (fuel : Nat) (fr : Frontier) (evs : List Event) (count : Nat)
    (st' : CrawlState)
    (h : run_bfs fetch write mp fuel ⟨fr, headerLine, true⟩ 0 =
        .finished evs count st') :
    st'.file = headerLine ++ strJoin (scrapedRecs fetch evs) ∧
    scrapedNums evs = List.range' 1 count := by
  obtain ⟨_, h2, _, _, h5, _, _⟩ :=
    run_bfs_finished_inv fetch write mp fuel _ 0 evs count st' h
  exact ⟨h5, by simpa using h2⟩

theorem corpus_file_format_witness :
    (⟨⟨[], ["https://s.test/p2", "https://s.test/"]⟩,
      headerLine ++ recordBlock 1 "https://s.test/" "hello"
        ++ recordBlock 2 "https://s.test/p2" "bye", false⟩ : CrawlState).file =
      headerLine ++ strJoin (scrapedRecs wFetch
        [Event.pageScraped 1 "https://s.test/",
         Event.pageScraped 2 "https://s.test/p2", Event.runFinished 2]) ∧
    scrapedNums [Event.pageScraped 1 "https://s.test/",
        Event.pageScraped 2 "https://s.test/p2", Event.runFinished 2]
      = List.range' 1 2 :=
  corpus_file_format wFetch (fun _ => true) 5 10
    ⟨["https://s.test/"], ["https://s.test/"]⟩
    [Event.pageScraped 1 "https://s.test/",
     Event.pageScraped 2 "https://s.test/p2", Event.runFinished 2] 2
    ⟨⟨[], ["https://s.test/p2", "https://s.test/"]⟩,
     headerLine ++ recordBlock 1 "https://s.test/" "hello"
       ++ recordBlock 2 "https://s.test/p2" "bye", false⟩
    (by decide)

/-- C4 is false as stated: for a page at `https://x.test/page` whose links
are `mailto:a@b.com`, `#section` and `https://x.test/y`, the offered URLs
are not just `https://x.test/y` — the fragment-only link is offered too. -/
theorem fragment_link_offered :
    (processLinks ⟨[], ["https://x.test/page"]⟩ "https://x.test/page"
        [some "mailto:a@b.com", some "#section", some "https://x.test/y"]).queue
      ≠ ["https://x.test/y"] := by decide

/-- C4 (amended): each nonempty href is resolved against the page URL and
offered iff the resolved scheme begins with `http`: `mailto:` and
`javascript:` links are excluded, but a fragment-only link resolves to the
page URL plus the fragment — an https URL distinct from the page's — and
is offered and enqueued. -/
theorem link_scheme_filter :
    processLinks ⟨[], ["https://x.test/page"]⟩ "https://x.test/page"
      [some "mailto:a@b.com", some "javascript:void(0)", some "#section",
       some "https://x.test/y"]
    = ⟨["https://x.test/page#section", "https://x.test/y"],
       ["https://x.test/y", "https://x.test/page#section",
        "https://x.test/page"]⟩ := by decide

/-- C10: an anchor element whose href attribute is missing or empty is
skipped entirely — removing it from the page's link list leaves the
frontier produced by link extraction unchanged (it is never resolved nor
offered). -/
theorem empty_href_skipped (fr : Frontier) (base : Url)
    (l1 l2 : List (Option String)) (h : Option String)
    (hh : h = none ∨ h = some "") :
    processLinks fr base (l1 ++ h :: l2) = processLinks fr base (l1 ++ l2) := by
  induction l1 generalizing fr with
  | nil =>
    rcases hh with rfl | rfl
    · simp [processLinks]
    · simp [processLinks]
  | cons a l1 ih =>
    simp only [List.cons_append, processLinks, List.foldl_cons]
    exact ih _

theorem empty_href_skipped_witness :
    processLinks ⟨[], []⟩ "https://x.test/"
        ([some "https://a.test/"] ++ none :: []) =
      processLinks ⟨[], []⟩ "https://x.test/" ([some "https://a.test/"] ++ []) :=
  empty_href_skipped ⟨[], []⟩ "https://x.test/" [some "https://a.test/"] []
    none (Or.inl rfl)

/-- C2: the code contradicts this claim (and its own description of the
append option): with the append box checked the previous path is reused,
but `start_scraping` opens it with mode `"w"` — the file is truncated to a
fresh header and the prior run's records are destroyed. -/
theorem append_mode_truncates :
    getFs (start_scraping "scraped_data_new.txt"
        ⟨"https://s.test/", "50", true, "scraped_data_old.txt", ⟨[], []⟩, false⟩
        [("scraped_data_old.txt",
          headerLine ++ recordBlock 1 "https://old.test/" "old text")]).2
      "scraped_data_old.txt" = some headerLine ∧
    headerLine ≠ headerLine ++ recordBlock 1 "https://old.test/" "old text" :=
  ⟨by decide, by decide⟩

/-- C5 is false as stated: with budget entry `"0"` `start_scraping` does
not fail with an error — it starts the run, discards the frontier's prior
contents, seeds it, and truncates the output file to the header. -/
theorem zero_budget_not_rejected :
    start_scraping "scraped_data_new.txt"
      ⟨"https://s.test/", "0", false, "scraped_data_old.txt",
        ⟨["https://pending.test/"], ["https://seen.test/"]⟩, false⟩ []
    = (.started ⟨"https://s.test/", "0", false, "scraped_data_new.txt",
         ⟨["https://s.test/"], ["https://s.test/"]⟩, true⟩ 0,
       [("scraped_data_new.txt", headerLine)]) := by decide

/-- C5 (amended): a page budget of 0 or any negative integer is accepted —
`start_scraping` proceeds (only a non-integer entry is rejected), resets
and seeds the frontier, truncates the corpus file to the header — and the
BFS loop then finishes immediately with 0 pages scraped. -/
theorem nonpositive_budget_accepted (newName : String) (st : GuiState)
    (fs : Fs) (n : Int) (fetch : FetchOracle) (write : WriteOracle)
    (fuel : Nat) (cst : CrawlState)
    (hurl : pyStrip st.urlEntry ≠ "") (hint : pyInt? st.maxPagesEntry = some n)
    (hn : n ≤ 0) :
    (∃ st', start_scraping newName st fs =
        (.started st' n, setFs fs st'.outputFile headerLine) ∧
        st'.frontier = ⟨[pyStrip st.urlEntry], [pyStrip st.urlEntry]⟩ ∧
        st'.running = true) ∧
    run_bfs fetch write n (fuel + 1) cst 0 =
      .finished [.runFinished 0] 0 { cst with running := false } := by
  constructor
  · exact ⟨_, start_scraping_success newName st fs n hurl hint, rfl, rfl⟩
  · rw [run_bfs]
    rw [if_neg (fun hcc => absurd hcc.2 (by omega))]

theorem nonpositive_budget_accepted_witness :
    (∃ st', start_scraping "scraped_data_new.txt"
        ⟨" https://s.test/ ", "0", false, "scraped_data_old.txt",
          ⟨["https://pending.test/"], ["https://seen.test/"]⟩, false⟩ [] =
        (.started st' 0, setFs [] st'.outputFile headerLine) ∧
        st'.frontier = ⟨[pyStrip " https://s.test/ "], [pyStrip " https://s.test/ "]⟩ ∧
        st'.running = true) ∧
    run_bfs wFetch (fun _ => true) 0 (3 + 1)
      ⟨⟨["https://s.test/"], ["https://s.test/"]⟩, headerLine, true⟩ 0 =
      .finished [.runFinished 0] 0
        ⟨⟨["https://s.test/"], ["https://s.test/"]⟩, headerLine, false⟩ :=
  nonpositive_budget_accepted "scraped_data_new.txt"
    ⟨" https://s.test/ ", "0", false, "scraped_data_old.txt",
      ⟨["https://pending.test/"], ["https://seen.test/"]⟩, false⟩ [] 0
    wFetch (fun _ => true) 3
    ⟨⟨["https://s.test/"], ["https://s.test/"]⟩, headerLine, true⟩
    (by decide) (by decide) (by decide)

/-- C7 is false as stated: invoking `start_scraping` while a run is in
progress (`running = true`) is not rejected — the frontier is reset, the
output file is truncated to the header, and a second BFS thread starts. -/
theorem start_while_running_not_rejected :
    start_scraping "scraped_data_new.txt"
      ⟨"https://s.test/", "50", false, "scraped_data_old.txt",
        ⟨["https://pending.test/"],
         ["https://pending.test/", "https://done.test/"]⟩, true⟩
      [("scraped_data_old.txt", headerLine)]
    = (.started ⟨"https://s.test/", "50", false, "scraped_data_new.txt",
         ⟨["https://s.test/"], ["https://s.test/"]⟩, true⟩ 50,
       [("scraped_data_new.txt", headerLine),
        ("scraped_data_old.txt", headerLine)]) := by decide

/-- C7 (amended): `start_scraping` has no run-state guard — invoked with
`running = true` and valid inputs it proceeds exactly as from idle: it
resets and reseeds the frontier, truncates the output file to the header,
and starts another BFS loop. -/
theorem start_ignores_running (newName : String) (st : GuiState) (fs : Fs)
    (n : Int) (hrun : st.running = true)
    (hurl : pyStrip st.urlEntry ≠ "") (hint : pyInt? st.maxPagesEntry = some n) :
    ∃ st', start_scraping newName st fs =
        (.started st' n, setFs fs st'.outputFile headerLine) ∧
      st'.frontier = ⟨[pyStrip st.urlEntry], [pyStrip st.urlEntry]⟩ ∧
      st'.running = true :=
  ⟨_, start_scraping_success newName st fs n hurl hint, rfl, rfl⟩

theorem start_ignores_running_witness :
    ∃ st', start_scraping "scraped_data_new.txt"
        ⟨"https://s.test/", "50", false, "scraped_data_old.txt",
          ⟨["https://pending.test/"],
           ["https://pending.test/", "https://done.test/"]⟩, true⟩ [] =
        (.started st' 50, setFs [] st'.outputFile headerLine) ∧
      st'.frontier = ⟨[pyStrip "https://s.test/"], [pyStrip "https://s.test/"]⟩ ∧
      st'.running = true :=
  start_ignores_running "scraped_data_new.txt"
    ⟨"https://s.test/", "50", false, "scraped_data_old.txt",
      ⟨["https://pending.test/"],
       ["https://pending.test/", "https://done.test/"]⟩, true⟩ [] 50
    rfl (by decide) (by decide)

end DataScraper
